import Mathlib

/-!
A verification development for the measurement-collection core of the
`bmk_linux` crate: the mlocked fixed-capacity result buffer
(`src/resultarray.rs`), the TSC-based clock (`src/timing.rs`), and the
memoizing statistics engine (`MemoizedTimingData`, also `src/timing.rs`).

Modelling conventions, applied uniformly:
* Rust panics (failed `assert!`, `unwrap()` of `None`, integer division by
  zero, out-of-bounds indexing, failed syscalls treated as fatal) are
  modelled by `Option`-valued functions returning `none`.
* `u64` / `usize` values are modelled by `Nat`, with arithmetic taken
  exactly (the products and sums appearing here do not overflow for any
  input realizable by the callers; overflow checking is outside the model).
* `f64` values are modelled by the type `F64` below: either a finite value,
  carried as an exact rational, or the IEEE non-number `NaN`.  The only
  operation that can produce `NaN` here is the division `0.0 / 0.0`
  arising on empty sample sets.  `f64::sqrt` is kept out of the state
  (see `MemoizedTimingData.sd`) and expressed with `Real.sqrt` in theorem
  statements.
* Stateful Rust methods (`&mut self`) become explicit state passing:
  a method returns its result paired with the updated state.
-/

namespace Bmk

/-! ## ResultArray (`src/resultarray.rs`) -/

/-- Number of bytes in a page (`PAGE_SIZE`, resultarray.rs line 11). -/
def PAGE_SIZE : Nat := 4096

/-- `std::isize::MAX` as an unsigned quantity, `2^63 - 1`. -/
def ISIZE_MAX : Nat := 2 ^ 63 - 1

/-- The logical state of a `ResultArray<T>`: the mapped region is a run of
`cap` element slots, each either uninitialized (`none`) or holding a
constructed `T`; `len` counts pushed elements.  The raw `ptr`/`size`
fields are represented by the `slots` list itself. -/
structure ResultArray (T : Type) where
  slots : List (Option T)
  cap : Nat
  len : Nat
deriving DecidableEq

namespace ResultArray

/-- The logical state `ResultArray::new` establishes on success: a region
of `cap` uninitialized slots, `len = 0`. -/
def mkNew (T : Type) (cap : Nat) : ResultArray T :=
  ⟨List.replicate cap none, cap, 0⟩

/-- `mmap(NULL, size, ...)`: fails when the external call fails (`ok`),
and always fails for `size = 0`, which POSIX `mmap` rejects with
`EINVAL`. -/
def mmapSucceeds (size : Nat) (ok : Bool) : Bool :=
  size != 0 && ok

/-- `ResultArray::<T>::new(cap)` (resultarray.rs lines 33-70).
`elemSize` stands for `mem::size_of::<T>()`; `mmapOk` / `mlockOk` are
oracles for the success of the two system calls.  The source asserts
`size % PAGE_SIZE == 0`, then `size < isize::MAX`, then panics if `mmap`
fails, then asserts `mlock` returned 0; each failed step is `none`. -/
def newChecked (T : Type) (elemSize cap : Nat) (mmapOk mlockOk : Bool) :
    Option (ResultArray T) :=
  let size := cap * elemSize
  if size % PAGE_SIZE = 0 then
    if size < ISIZE_MAX then
      if mmapSucceeds size mmapOk then
        if mlockOk then some (mkNew T cap) else none
      else none
    else none
  else none

/-- `ResultArray::push` (resultarray.rs lines 82-90): asserts
`len < cap`, writes `item` into slot `len`, increments `len`. -/
def push {T : Type} (a : ResultArray T) (item : T) : Option (ResultArray T) :=
  if a.len < a.cap then
    some { a with slots := a.slots.set a.len (some item), len := a.len + 1 }
  else
    none

/-- `ResultArray::iter` / `as_slice` (resultarray.rs lines 72-75, 92-94):
the first `len` slots of the region, in order.  A `none` in the output
would be an observation of an uninitialized slot. -/
def iter {T : Type} (a : ResultArray T) : List (Option T) :=
  a.slots.take a.len

/-- A sequence of `push` calls, stopping at the first panic. -/
def pushAll {T : Type} (a : ResultArray T) (xs : List T) : Option (ResultArray T) :=
  xs.foldlM push a

/-- Observable events of teardown: a destructor run on the contents of a
slot, or the release (`munmap`) of the region. -/
inductive DropEvent (T : Type) where
  | destruct (v : Option T)
  | release
deriving DecidableEq

/-- The `T`-typed content at byte offset `addr` of the region, in a
typed-memory view: a constructed element is read back only at exactly the
byte address where `push` wrote it, namely `index * elemSize` (the
`*mut T` cast makes `push`'s offset an element offset); a read at any
other byte address is a wrong or misaligned read of raw bytes —
undefined behaviour in the source — modelled as `none`. -/
def readAt {T : Type} (a : ResultArray T) (elemSize addr : Nat) : Option T :=
  if 0 < elemSize ∧ addr % elemSize = 0 then a.slots.getD (addr / elemSize) none
  else none

/-- `impl Drop for ResultArray` (resultarray.rs lines 112-124): the loop
pops while `len > 0`; `pop` (lines 101-109) decrements `len` and then
reads a `T` from `self.ptr.offset(self.len as isize)`.  `self.ptr` is
a `*mut u8` and — unlike in `push` — is NOT cast to `*mut T` before the
offset, so the read is `len` BYTES into the region, not `len` elements.
Drop therefore emits destructor events for the `T`-typed contents of
byte offsets `len-1, len-2, ..., 0`, then the region is `munmap`ed. -/
def dropRA {T : Type} (elemSize : Nat) (a : ResultArray T) : List (DropEvent T) :=
  ((List.range a.len).reverse.map fun j => DropEvent.destruct (readAt a elemSize j)) ++
    [DropEvent.release]

end ResultArray

/-! ## Tsc clock (`src/timing.rs` lines 36-62) -/

/-- `struct Tsc { tsc: u64, freq: Option<usize> }`. -/
structure Tsc where
  tsc : Nat
  freq : Option Nat
deriving DecidableEq

namespace Tsc

/-- `Tsc::now()` with a given `rdtsc` reading: `freq` starts unset. -/
def now (reading : Nat) : Tsc := ⟨reading, none⟩

/-- `Tsc::set_scaling_factor` (timing.rs lines 50-52). -/
def setScalingFactor (t : Tsc) (f : Nat) : Tsc := { t with freq := some f }

/-- `Tsc::duration_since` (timing.rs lines 54-61), yielding nanoseconds:
asserts `earlier.tsc < self.tsc` (strict), unwraps `self.freq`, and
computes `diff * 1000 / freq` — a `u64` division, which panics when the
divisor is 0. -/
def durationSince (self earlier : Tsc) : Option Nat :=
  if earlier.tsc < self.tsc then
    match self.freq with
    | none => none
    | some f => if f = 0 then none else some ((self.tsc - earlier.tsc) * 1000 / f)
  else
    none

end Tsc

/-! ## MemoizedTimingData (`src/timing.rs` lines 91-211) -/

/-- An `f64` as it arises in this code: a finite value (exact rational)
or `NaN` (from `0.0 / 0.0` on empty sample sets). -/
inductive F64 where
  | nan
  | val (q : ℚ)
deriving DecidableEq

/-- `f64` division as it occurs here: the denominator is a sample count
and the numerator a sum over the samples, so denominator 0 forces
numerator 0 and the result is `0.0 / 0.0 = NaN`. -/
def fdiv (x y : ℚ) : F64 :=
  if y = 0 then F64.nan else F64.val (x / y)

/-- `struct MemoizedTimingData` (timing.rs lines 91-99).  The `HashMap`
of percentiles is an association list queried with `List.lookup` (the
source never inserts a key twice, so first-match lookup agrees with the
map).  `cached_sd` stores the radicand `deviations_sq / n` rather than
its square root: `f64::sqrt` is a deterministic pure function of it, so
theorems express the returned standard deviation as `Real.sqrt` of the
cached value. -/
structure MemoizedTimingData where
  cached_avg : Option F64
  cached_sd : Option F64
  cached_max : Option F64
  cached_sorted : Option (List Nat)
  cached_percentiles : List (Nat × F64)
deriving DecidableEq

namespace MemoizedTimingData

/-- `MemoizedTimingData::new` (timing.rs lines 102-111). -/
def new : MemoizedTimingData := ⟨none, none, none, none, []⟩

/-- `MemoizedTimingData::avg` (timing.rs lines 113-126): returns the
cache if set, else `(sum as f64) / (n as f64)` and caches it. -/
def avg (s : MemoizedTimingData) (measurements : List Nat) :
    F64 × MemoizedTimingData :=
  match s.cached_avg with
  | some a => (a, s)
  | none =>
    let a := fdiv (measurements.sum : ℚ) (measurements.length : ℚ)
    (a, { s with cached_avg := some a })

/-- `MemoizedTimingData::sd` (timing.rs lines 128-141), up to the final
`sqrt`: returns the cached radicand if set, else computes `avg` (caching
it), sums the squared deviations, divides by `n`, and caches that.  The
value the source returns is the square root of this; on an empty slice
the division is `0.0 / 0.0 = NaN` and `NaN.sqrt()` is again `NaN`. -/
def sd (s : MemoizedTimingData) (measurements : List Nat) :
    F64 × MemoizedTimingData :=
  match s.cached_sd with
  | some v => (v, s)
  | none =>
    let n : ℚ := measurements.length
    let (a, s1) := s.avg measurements
    let v :=
      match a with
      | F64.nan => fdiv 0 0
      | F64.val m => fdiv ((measurements.map fun x => ((x : ℚ) - m) ^ 2).sum) n
    (v, { s1 with cached_sd := some v })

/-- `MemoizedTimingData::sorted_data` (timing.rs lines 143-153): the
cached ascending sort of the samples, computed once.  `sort_unstable` on
`u64` produces the unique `≤`-sorted permutation, which
`List.insertionSort` also computes. -/
def sorted_data (s : MemoizedTimingData) (measurements : List Nat) :
    List Nat × MemoizedTimingData :=
  match s.cached_sorted with
  | some v => (v, s)
  | none =>
    let v := measurements.insertionSort (· ≤ ·)
    (v, { s with cached_sorted := some v })

/-- `MemoizedTimingData::percentile` (timing.rs lines 155-174): asserts
`percentile < 100`, returns the cache on a hit, else indexes the sorted
data at `len * percentile / 100`, asserting the index in bounds. -/
def percentile (s : MemoizedTimingData) (measurements : List Nat) (p : Nat) :
    Option (F64 × MemoizedTimingData) :=
  if p < 100 then
    match s.cached_percentiles.lookup p with
    | some v => some (v, s)
    | none =>
      let (sorted, s1) := s.sorted_data measurements
      let idx := sorted.length * p / 100
      if h : idx < sorted.length then
        let v := F64.val (sorted.get ⟨idx, h⟩ : ℚ)
        some (v, { s1 with cached_percentiles := (p, v) :: s1.cached_percentiles })
      else none
  else none

/-- `MemoizedTimingData::permicrotile` (timing.rs lines 176-195): asserts
`990000 < q < 1000000`, otherwise identical to `percentile` with
denominator 1,000,000, sharing the same cache keyspace. -/
def permicrotile (s : MemoizedTimingData) (measurements : List Nat) (q : Nat) :
    Option (F64 × MemoizedTimingData) :=
  if q < 1000000 ∧ 990000 < q then
    match s.cached_percentiles.lookup q with
    | some v => some (v, s)
    | none =>
      let (sorted, s1) := s.sorted_data measurements
      let idx := sorted.length * q / 1000000
      if h : idx < sorted.length then
        let v := F64.val (sorted.get ⟨idx, h⟩ : ℚ)
        some (v, { s1 with cached_percentiles := (q, v) :: s1.cached_percentiles })
      else none
  else none

/-- `MemoizedTimingData::max` (timing.rs lines 197-210): returns the
cache if set, else the last element of the sorted data
(`sorted.last().unwrap()`, panicking on an empty slice) and caches it. -/
def maxOf (s : MemoizedTimingData) (measurements : List Nat) :
    Option (F64 × MemoizedTimingData) :=
  match s.cached_max with
  | some v => some (v, s)
  | none =>
    let (sorted, s1) := s.sorted_data measurements
    match sorted.getLast? with
    | none => none
    | some m =>
      let v := F64.val (m : ℚ)
      some (v, { s1 with cached_max := some v })

end MemoizedTimingData

/-! ## Helper lemmas -/

theorem take_set_succ {α : Type} (l : List α) (n : Nat) (v : α) (h : n < l.length) :
    (l.set n v).take (n + 1) = l.take n ++ [v] := by
  induction l generalizing n with
  | nil => simp at h
  | cons hd tl ih =>
    cases n with
    | zero => simp
    | succ m =>
      simp only [List.set, List.take, List.cons_append, List.cons.injEq, true_and]
      exact ih m (by simpa using h)

theorem pushAll_spec {T : Type} (xs : List T) (a : ResultArray T)
    (hlen : a.slots.length = a.cap) (hcap : a.len + xs.length ≤ a.cap) :
    ∃ r, ResultArray.pushAll a xs = some r ∧ r.cap = a.cap ∧
      r.len = a.len + xs.length ∧ r.slots.length = a.cap ∧
      r.slots.take r.len = a.slots.take a.len ++ xs.map some := by
  induction xs generalizing a with
  | nil => exact ⟨a, rfl, rfl, rfl, hlen, by simp⟩
  | cons x xs ih =>
    have hxs : a.len + (x :: xs).length = a.len + 1 + xs.length := by
      simp; omega
    have hlt : a.len < a.cap := by
      simp only [List.length_cons] at hcap; omega
    have hpush : ResultArray.push a x =
        some ⟨a.slots.set a.len (some x), a.cap, a.len + 1⟩ := by
      simp [ResultArray.push, hlt]
    have hlen' : (a.slots.set a.len (some x)).length = a.cap := by
      simpa using hlen
    have hcap' : a.len + 1 + xs.length ≤ a.cap := by
      simp only [List.length_cons] at hcap; omega
    obtain ⟨r, hr, h1, h2, h3, h4⟩ :=
      ih ⟨a.slots.set a.len (some x), a.cap, a.len + 1⟩ hlen' hcap'
    refine ⟨r, ?_, h1, by rw [hxs]; exact h2, h3, ?_⟩
    · simpa [ResultArray.pushAll, hpush] using hr
    · rw [h4]
      show (a.slots.set a.len (some x)).take (a.len + 1) ++ _ =
        a.slots.take a.len ++ (some x :: xs.map some)
      rw [take_set_succ a.slots a.len (some x) (by omega)]
      simp

/-! ## Claims -/

/-- C1: for every element type, capacity, and sequence of `k ≤ cap` items,
pushing them in order onto a fresh `ResultArray` succeeds, and `iter()`
then yields exactly those `k` items in insertion order — in particular it
never yields an uninitialized slot (`none`) nor any slot at index
`≥ len = k`. -/
theorem c1_iter_yields_pushes (T : Type) (cap : Nat) (xs : List T)
    (h : xs.length ≤ cap) :
    ∃ r, ResultArray.pushAll (ResultArray.mkNew T cap) xs = some r ∧
      r.iter = xs.map some ∧ r.len = xs.length := by
  obtain ⟨r, hr, _, h2, _, h4⟩ :=
    pushAll_spec xs (ResultArray.mkNew T cap) (by simp [ResultArray.mkNew]) (by simpa [ResultArray.mkNew])
  exact ⟨r, hr, by simpa [ResultArray.iter, ResultArray.mkNew] using h4,
    by simpa [ResultArray.mkNew] using h2⟩

theorem c1_witness :
    ([5, 7] : List Nat).length ≤ 2 ∧
      (∃ r, ResultArray.pushAll (ResultArray.mkNew Nat 2) [5, 7] = some r ∧
        r.iter = [5, 7].map some ∧ r.len = [5, 7].length) :=
  ⟨by decide, c1_iter_yields_pushes Nat 2 [5, 7] (by decide)⟩

set_option maxRecDepth 40000 in
/-- C2 (code bug): the claim — every one of the first `len` pushed
elements has its destructor invoked exactly once, on the value pushed at
that index, before the single release — is the documented intent, but the
code's `pop` offsets the raw `*mut u8` by BYTES (it lacks the `*mut T`
cast that `push` has).  With `T = u64` (`elemSize = 8`), one page of
capacity (`cap = 512`), and pushed values 11 and 22, teardown reads
`T`-values at byte offsets 1 and 0: offset 1 is a misaligned garbage
read (`destruct none`), and the value 22 pushed at index 1 is never
destructed. -/
theorem c2_drop_byte_offset_bug :
    ResultArray.pushAll (ResultArray.mkNew Nat 512) [11, 22] =
      some ⟨((List.replicate 512 (none : Option Nat)).set 0 (some 11)).set 1 (some 22),
        512, 2⟩ ∧
    ResultArray.dropRA 8
        (⟨((List.replicate 512 (none : Option Nat)).set 0 (some 11)).set 1 (some 22),
          512, 2⟩ : ResultArray Nat) =
      [ResultArray.DropEvent.destruct none,
        ResultArray.DropEvent.destruct (some 11),
        ResultArray.DropEvent.release] ∧
    ResultArray.DropEvent.destruct (some 22) ∉
      ResultArray.dropRA 8
        (⟨((List.replicate 512 (none : Option Nat)).set 0 (some 11)).set 1 (some 22),
          512, 2⟩ : ResultArray Nat) := by
  refine ⟨by decide, by decide, by decide⟩

/-- C3: `ResultArray::new` returns an empty buffer (`len = 0`) exactly
when `cap * sizeof(T)` is a positive multiple of the page size, strictly
below `isize::MAX`, and both the mapping and the locking system call
succeed; in every other case it panics (`none`), never returning a
partially usable buffer. -/
theorem c3_new_empty_iff (T : Type) (elemSize cap : Nat) (mmapOk mlockOk : Bool) :
    (∀ r, ResultArray.newChecked T elemSize cap mmapOk mlockOk = some r →
      r.len = 0 ∧ r.cap = cap) ∧
    ((ResultArray.newChecked T elemSize cap mmapOk mlockOk).isSome ↔
      (0 < cap * elemSize ∧ cap * elemSize % PAGE_SIZE = 0 ∧
        cap * elemSize < ISIZE_MAX ∧ mmapOk = true ∧ mlockOk = true)) := by
  constructor
  · intro r hr
    simp only [ResultArray.newChecked] at hr
    split_ifs at hr
    obtain rfl : ResultArray.mkNew T cap = r := by injection hr
    exact ⟨rfl, rfl⟩
  · constructor
    · intro hs
      simp only [ResultArray.newChecked] at hs
      split_ifs at hs with h1 h2 h3 h4
      · simp only [ResultArray.mmapSucceeds, Bool.and_eq_true, bne_iff_ne, ne_eq] at h3
        exact ⟨Nat.pos_of_ne_zero h3.1, h1, h2, h3.2, h4⟩
      all_goals simp at hs
    · rintro ⟨hpos, hmod, hsz, hmo, hlo⟩
      have hne : cap * elemSize ≠ 0 := by omega
      simp [ResultArray.newChecked, ResultArray.mmapSucceeds, hmod, hsz, hne, hmo, hlo]

theorem c3_witness :
    (∀ r, ResultArray.newChecked Nat 8 512 true true = some r →
      r.len = 0 ∧ r.cap = 512) ∧
    ((ResultArray.newChecked Nat 8 512 true true).isSome ↔
      (0 < 512 * 8 ∧ 512 * 8 % PAGE_SIZE = 0 ∧
        512 * 8 < ISIZE_MAX ∧ true = true ∧ true = true)) :=
  c3_new_empty_iff Nat 8 512 true true

/-- C4: on any reachable buffer state (`len ≤ cap`), `push` panics if and
only if `len = cap`; when it succeeds it writes the item into slot `len`,
increments `len` by one, and leaves `cap` unchanged. -/
theorem c4_push_spec (T : Type) (a : ResultArray T) (x : T) (h : a.len ≤ a.cap) :
    (ResultArray.push a x = none ↔ a.len = a.cap) ∧
    (∀ r, ResultArray.push a x = some r →
      r.slots = a.slots.set a.len (some x) ∧ r.len = a.len + 1 ∧ r.cap = a.cap) := by
  constructor
  · by_cases hlt : a.len < a.cap
    · simp only [ResultArray.push, if_pos hlt]
      constructor
      · intro hc; exact absurd hc (by simp)
      · omega
    · have hEq : a.len = a.cap := by omega
      simp [ResultArray.push, hlt, hEq]
  · intro r hr
    simp only [ResultArray.push] at hr
    split_ifs at hr
    obtain rfl : ({ a with slots := a.slots.set a.len (some x), len := a.len + 1 }
        : ResultArray T) = r := by injection hr
    exact ⟨rfl, rfl, rfl⟩

theorem c4_witness :
    (ResultArray.push (⟨[none], 1, 0⟩ : ResultArray Nat) 7 = none ↔ 0 = 1) ∧
    (∀ r, ResultArray.push (⟨[none], 1, 0⟩ : ResultArray Nat) 7 = some r →
      r.slots = [none].set 0 (some 7) ∧ r.len = 0 + 1 ∧ r.cap = 1) :=
  c4_push_spec Nat ⟨[none], 1, 0⟩ 7 (by decide)

/-- C5 (counterexample): the claim asserts that any pair of readings with
`r1.tsc ≤ r2.tsc` and a scaling factor set makes `duration_since(r2, r1)`
succeed.  It fails at equal tick counts (the source asserts strict
`earlier.tsc < self.tsc`), and at scaling factor 0 (the `u64` division
panics). -/
theorem c5_counterexample :
    Tsc.durationSince ⟨5, some 1⟩ ⟨5, some 1⟩ = none ∧
    Tsc.durationSince ⟨7, some 0⟩ ⟨5, some 0⟩ = none := by
  decide

/-- C5 (amended): for readings with `r1.tsc` strictly below `r2.tsc` and
a positive scaling factor `f` set on `r2`, `duration_since(r2, r1)`
succeeds and returns the non-negative duration
`(r2.tsc - r1.tsc) * 1000 / f` nanoseconds, linear in the raw tick
difference under exact integer arithmetic. -/
theorem c5_duration_linear (t1 t2 f : Nat) (fr : Option Nat)
    (hlt : t1 < t2) (hf : 0 < f) :
    Tsc.durationSince ⟨t2, some f⟩ ⟨t1, fr⟩ = some ((t2 - t1) * 1000 / f) := by
  have hf' : ¬f = 0 := by omega
  simp [Tsc.durationSince, hlt, hf']

theorem c5_witness :
    (3 : Nat) < 7 ∧ (0 : Nat) < 2 ∧
    Tsc.durationSince ⟨7, some 2⟩ ⟨3, some 2⟩ = some 2000 :=
  ⟨by decide, by decide,
    (c5_duration_linear 3 7 2 (some 2) (by decide) (by decide)).trans (by decide)⟩

/-- C6: `duration_since(self, earlier)` panics whenever `earlier` does not
chronologically precede `self` (`self.tsc ≤ earlier.tsc`), and panics
whenever no scaling factor has been set on `self` — there is no default
divisor and no recoverable error result. -/
theorem c6_duration_fatal (self earlier : Tsc) :
    (self.tsc ≤ earlier.tsc → Tsc.durationSince self earlier = none) ∧
    (self.freq = none → Tsc.durationSince self earlier = none) := by
  constructor
  · intro hle
    have hnl : ¬earlier.tsc < self.tsc := by omega
    simp [Tsc.durationSince, hnl]
  · intro hf
    simp [Tsc.durationSince, hf]

theorem c6_witness :
    Tsc.durationSince ⟨3, some 1⟩ ⟨5, some 1⟩ = none ∧
    Tsc.durationSince ⟨9, none⟩ ⟨4, none⟩ = none :=
  ⟨(c6_duration_fatal ⟨3, some 1⟩ ⟨5, some 1⟩).1 (by decide),
   (c6_duration_fatal ⟨9, none⟩ ⟨4, none⟩).2 rfl⟩

theorem le_getLast_of_sorted :
    ∀ (l : List Nat), l.Sorted (· ≤ ·) → ∀ x ∈ l, ∀ (hne : l ≠ []),
      x ≤ l.getLast hne := by
  intro l
  induction l with
  | nil => intro _ x hx; cases hx
  | cons a t ih =>
    intro hs x hx hne
    rw [List.sorted_cons] at hs
    rcases List.mem_cons.mp hx with rfl | hxt
    · cases t with
      | nil => simp [List.getLast]
      | cons b t' =>
        rw [List.getLast_cons (List.cons_ne_nil b t')]
        exact hs.1 _ (List.getLast_mem (List.cons_ne_nil b t'))
    · cases t with
      | nil => cases hxt
      | cons b t' =>
        rw [List.getLast_cons (List.cons_ne_nil b t')]
        exact ih hs.2 x hxt (List.cons_ne_nil b t')

theorem sorted_max_spec (l : List Nat) (hne : l ≠ []) :
    ∃ m, (l.insertionSort (· ≤ ·)).getLast? = some m ∧ m ∈ l ∧
      ∀ x ∈ l, x ≤ m := by
  have hperm := List.perm_insertionSort (· ≤ ·) l
  have hsne : l.insertionSort (· ≤ ·) ≠ [] := by
    intro h0
    rw [h0] at hperm
    exact hne (List.Perm.nil_eq hperm).symm
  refine ⟨(l.insertionSort (· ≤ ·)).getLast hsne,
    List.getLast?_eq_getLast _ hsne, ?_, ?_⟩
  · exact hperm.mem_iff.mp (List.getLast_mem hsne)
  · intro x hx
    exact le_getLast_of_sorted _ (List.sorted_insertionSort (· ≤ ·) l) x
      (hperm.mem_iff.mpr hx) hsne

/-- C7: on a non-empty sample slice, `avg` returns the arithmetic mean
`sum / n`, `sd` returns the population standard deviation — the square
root of the squared deviations from the mean divided by `n`, not
`n - 1` — and `max` returns the largest sample value; in particular
`avg([10,20,30]) = 20`, `sd([10,20,30]) = √(200/3) ≈ 8.1650`, and
`max([10,20,30]) = 30`. -/
theorem c7_stats (l : List Nat) (hne : l ≠ []) :
    (MemoizedTimingData.new.avg l).1 =
      F64.val ((l.sum : ℚ) / (l.length : ℚ)) ∧
    (MemoizedTimingData.new.sd l).1 =
      F64.val ((l.map fun x =>
        ((x : ℚ) - (l.sum : ℚ) / (l.length : ℚ)) ^ 2).sum / (l.length : ℚ)) ∧
    (∃ (m : Nat) (s : MemoizedTimingData),
      MemoizedTimingData.new.maxOf l = some (F64.val (m : ℚ), s) ∧
      m ∈ l ∧ ∀ x ∈ l, x ≤ m) ∧
    (MemoizedTimingData.new.avg [10, 20, 30]).1 = F64.val 20 ∧
    (MemoizedTimingData.new.sd [10, 20, 30]).1 = F64.val (200 / 3) ∧
    |Real.sqrt (((200 : ℚ) / 3 : ℚ) : ℝ) - 8.1650| < 1 / 1000 ∧
    (∃ s, MemoizedTimingData.new.maxOf [10, 20, 30] = some (F64.val 30, s)) := by
  have h0 : l.length ≠ 0 := fun h => hne (List.length_eq_zero.mp h)
  have hlq : (l.length : ℚ) ≠ 0 := Nat.cast_ne_zero.mpr h0
  refine ⟨?_, ?_, ?_, ?_, ?_, ?_, ?_⟩
  · simp [MemoizedTimingData.avg, MemoizedTimingData.new, fdiv, hlq]
  · simp [MemoizedTimingData.sd, MemoizedTimingData.avg,
      MemoizedTimingData.new, fdiv, hlq]
  · obtain ⟨m, hgl, hmem, hmax⟩ := sorted_max_spec l hne
    have hrun : MemoizedTimingData.new.maxOf l =
        some (F64.val (m : ℚ),
          ⟨none, none, some (F64.val (m : ℚ)),
            some (l.insertionSort (· ≤ ·)), []⟩) := by
      simp [MemoizedTimingData.maxOf, MemoizedTimingData.sorted_data,
        MemoizedTimingData.new, hgl]
    exact ⟨m, _, hrun, hmem, hmax⟩
  · norm_num [MemoizedTimingData.avg, MemoizedTimingData.new, fdiv]
  · norm_num [MemoizedTimingData.sd, MemoizedTimingData.avg,
      MemoizedTimingData.new, fdiv]
  · have h1 : Real.sqrt (((200 : ℚ) / 3 : ℚ) : ℝ) < 8.166 := by
      rw [Real.sqrt_lt' (by norm_num)]
      push_cast
      norm_num
    have h2 : (8.164 : ℝ) < Real.sqrt (((200 : ℚ) / 3 : ℚ) : ℝ) := by
      rw [Real.lt_sqrt (by norm_num)]
      push_cast
      norm_num
    rw [abs_sub_lt_iff]
    constructor <;> [linarith; linarith]
  · exact ⟨⟨none, none, some (F64.val 30), some [10, 20, 30], []⟩, by decide⟩

theorem c7_witness :
    ([10, 20, 30] : List Nat) ≠ [] ∧
    (MemoizedTimingData.new.avg [10, 20, 30]).1 =
      F64.val (([10, 20, 30] : List Nat).sum / (([10, 20, 30] : List Nat).length : ℚ)) :=
  ⟨by decide, (c7_stats [10, 20, 30] (by decide)).1⟩

/-- C8: `percentile(samples, p)` on a fresh instance returns the value at
zero-based index `⌊n·p/100⌋` of the ascending sort of the samples when
`p < 100` and that index is in bounds, and panics when `p ≥ 100` or the
index is out of bounds (in particular on empty input, where any `p`
panics); `permicrotile(samples, q)` requires `990000 < q < 1000000`,
returns the value at sorted index `⌊n·q/1000000⌋`, and panics outside
that argument range or when the index is out of bounds. -/
theorem c8_order_stats (l : List Nat) (p q : Nat) :
    ((l.insertionSort (· ≤ ·)).Sorted (· ≤ ·) ∧
      List.Perm (l.insertionSort (· ≤ ·)) l) ∧
    (100 ≤ p → MemoizedTimingData.new.percentile l p = none) ∧
    (p < 100 → l.length * p / 100 < l.length →
      ∃ s, MemoizedTimingData.new.percentile l p =
        some (F64.val (((l.insertionSort (· ≤ ·)).getD (l.length * p / 100) 0 : Nat) : ℚ), s)) ∧
    (p < 100 → l.length ≤ l.length * p / 100 →
      MemoizedTimingData.new.percentile l p = none) ∧
    (q ≤ 990000 ∨ 1000000 ≤ q →
      MemoizedTimingData.new.permicrotile l q = none) ∧
    (990000 < q → q < 1000000 → l.length * q / 1000000 < l.length →
      ∃ s, MemoizedTimingData.new.permicrotile l q =
        some (F64.val (((l.insertionSort (· ≤ ·)).getD (l.length * q / 1000000) 0 : Nat) : ℚ), s)) ∧
    (990000 < q → q < 1000000 → l.length ≤ l.length * q / 1000000 →
      MemoizedTimingData.new.permicrotile l q = none) := by
  have hlen : (l.insertionSort (· ≤ ·)).length = l.length :=
    (List.perm_insertionSort (· ≤ ·) l).length_eq
  refine ⟨⟨List.sorted_insertionSort (· ≤ ·) l, List.perm_insertionSort (· ≤ ·) l⟩,
    ?_, ?_, ?_, ?_, ?_, ?_⟩
  · intro hp
    have : ¬p < 100 := by omega
    simp [MemoizedTimingData.percentile, this]
  · intro hp hidx
    have hidx' : l.length * p / 100 < (l.insertionSort (· ≤ ·)).length := by
      rw [hlen]; exact hidx
    refine ⟨⟨none, none, none, some (l.insertionSort (· ≤ ·)),
      [(p, F64.val (((l.insertionSort (· ≤ ·)).getD (l.length * p / 100) 0 : Nat) : ℚ))]⟩, ?_⟩
    simp only [MemoizedTimingData.percentile, MemoizedTimingData.sorted_data,
      MemoizedTimingData.new, if_pos hp, List.lookup_nil, hlen]
    rw [dif_pos hidx, List.getD_eq_getElem _ _ hidx']
    simp [List.get_eq_getElem]
  · intro hp hidx
    have hidx' : ¬l.length * p / 100 < (l.insertionSort (· ≤ ·)).length := by
      rw [hlen]; omega
    have hn : ¬l.length * p / 100 < l.length := by omega
    simp only [MemoizedTimingData.percentile, MemoizedTimingData.sorted_data,
      MemoizedTimingData.new, if_pos hp, List.lookup_nil, hlen, dif_neg hn]
  · intro hq
    have : ¬(q < 1000000 ∧ 990000 < q) := by omega
    simp [MemoizedTimingData.permicrotile, this]
  · intro hq1 hq2 hidx
    have hq : q < 1000000 ∧ 990000 < q := ⟨hq2, hq1⟩
    have hidx' : l.length * q / 1000000 < (l.insertionSort (· ≤ ·)).length := by
      rw [hlen]; exact hidx
    refine ⟨⟨none, none, none, some (l.insertionSort (· ≤ ·)),
      [(q, F64.val (((l.insertionSort (· ≤ ·)).getD (l.length * q / 1000000) 0 : Nat) : ℚ))]⟩, ?_⟩
    simp only [MemoizedTimingData.permicrotile, MemoizedTimingData.sorted_data,
      MemoizedTimingData.new, if_pos hq, List.lookup_nil, hlen]
    rw [dif_pos hidx, List.getD_eq_getElem _ _ hidx']
    simp [List.get_eq_getElem]
  · intro hq1 hq2 hidx
    have hq : q < 1000000 ∧ 990000 < q := ⟨hq2, hq1⟩
    have hidx' : ¬l.length * q / 1000000 < (l.insertionSort (· ≤ ·)).length := by
      rw [hlen]; omega
    have hn : ¬l.length * q / 1000000 < l.length := by omega
    simp only [MemoizedTimingData.permicrotile, MemoizedTimingData.sorted_data,
      MemoizedTimingData.new, if_pos hq, List.lookup_nil, hlen, dif_neg hn]

theorem c8_witness :
    (∃ s, MemoizedTimingData.new.percentile [40, 10, 30, 20] 50 =
      some (F64.val ((([40, 10, 30, 20] : List Nat).insertionSort (· ≤ ·)).getD
        (([40, 10, 30, 20] : List Nat).length * 50 / 100) 0 : ℚ), s)) ∧
    (∃ s, MemoizedTimingData.new.permicrotile [40, 10, 30, 20] 999999 =
      some (F64.val ((([40, 10, 30, 20] : List Nat).insertionSort (· ≤ ·)).getD
        (([40, 10, 30, 20] : List Nat).length * 999999 / 1000000) 0 : ℚ), s)) ∧
    MemoizedTimingData.new.percentile [40, 10, 30, 20] 100 = none ∧
    MemoizedTimingData.new.permicrotile [40, 10, 30, 20] 990000 = none :=
  ⟨(c8_order_stats [40, 10, 30, 20] 50 999999).2.2.1 (by decide) (by decide),
   (c8_order_stats [40, 10, 30, 20] 50 999999).2.2.2.2.2.1 (by decide) (by decide) (by decide),
   (c8_order_stats [40, 10, 30, 20] 100 999999).2.1 (by decide),
   (c8_order_stats [40, 10, 30, 20] 50 990000).2.2.2.2.1 (Or.inl (by decide))⟩

/-- C9: each derived value is computed at most once on a given
`MemoizedTimingData` instance: once a call to `avg`, `sd`, `max`, or
`percentile`/`permicrotile` with a given numeric argument has returned a
value, a second call to the same operation returns exactly that cached
value and leaves the state unchanged — even when the sample slice passed
to the second call differs (the stale cached value persists).  Sample
slices are immutable values in this model, so no call mutates its
input. -/
theorem c9_memoization :
    (∀ (s : MemoizedTimingData) (l1 l2 : List Nat) (v : F64)
      (s1 : MemoizedTimingData), s.avg l1 = (v, s1) → s1.avg l2 = (v, s1)) ∧
    (∀ (s : MemoizedTimingData) (l1 l2 : List Nat) (v : F64)
      (s1 : MemoizedTimingData), s.sd l1 = (v, s1) → s1.sd l2 = (v, s1)) ∧
    (∀ (s : MemoizedTimingData) (l1 l2 : List Nat) (v : F64)
      (s1 : MemoizedTimingData), s.maxOf l1 = some (v, s1) →
        s1.maxOf l2 = some (v, s1)) ∧
    (∀ (s : MemoizedTimingData) (l1 l2 : List Nat) (p : Nat) (v : F64)
      (s1 : MemoizedTimingData), s.percentile l1 p = some (v, s1) →
        s1.percentile l2 p = some (v, s1)) ∧
    (∀ (s : MemoizedTimingData) (l1 l2 : List Nat) (q : Nat) (v : F64)
      (s1 : MemoizedTimingData), s.permicrotile l1 q = some (v, s1) →
        s1.permicrotile l2 q = some (v, s1)) := by
  refine ⟨?_, ?_, ?_, ?_, ?_⟩
  · intro s l1 l2 v s1 h
    rcases hca : s.cached_avg with _ | a
    · simp only [MemoizedTimingData.avg, hca] at h
      injection h with h1 h2
      subst h1; subst h2
      simp [MemoizedTimingData.avg]
    · simp only [MemoizedTimingData.avg, hca] at h
      injection h with h1 h2
      subst h1; subst h2
      simp [MemoizedTimingData.avg, hca]
  · intro s l1 l2 v s1 h
    rcases hcs : s.cached_sd with _ | a
    · rcases hav : s.avg l1 with ⟨a0, s2⟩
      simp only [MemoizedTimingData.sd, hcs, hav] at h
      injection h with h1 h2
      subst h1; subst h2
      simp [MemoizedTimingData.sd]
    · simp only [MemoizedTimingData.sd, hcs] at h
      injection h with h1 h2
      subst h1; subst h2
      simp [MemoizedTimingData.sd, hcs]
  · intro s l1 l2 v s1 h
    rcases hcm : s.cached_max with _ | a
    · rcases hsd : s.sorted_data l1 with ⟨sorted, s2⟩
      rcases hgl : sorted.getLast? with _ | m
      · simp [MemoizedTimingData.maxOf, hcm, hsd, hgl] at h
      · simp only [MemoizedTimingData.maxOf, hcm, hsd, hgl] at h
        injection h with h'
        injection h' with h1 h2
        subst h1; subst h2
        simp [MemoizedTimingData.maxOf]
    · simp only [MemoizedTimingData.maxOf, hcm] at h
      injection h with h'
      injection h' with h1 h2
      subst h1; subst h2
      simp [MemoizedTimingData.maxOf, hcm]
  · intro s l1 l2 p v s1 h
    by_cases hp : p < 100
    · rcases hlk : s.cached_percentiles.lookup p with _ | w
      · rcases hsd : s.sorted_data l1 with ⟨sorted, s2⟩
        simp only [MemoizedTimingData.percentile, if_pos hp, hlk, hsd] at h
        by_cases hix : sorted.length * p / 100 < sorted.length
        · rw [dif_pos hix] at h
          injection h with h'
          injection h' with h1 h2
          subst h1; subst h2
          simp [MemoizedTimingData.percentile, if_pos hp, List.lookup_cons]
        · rw [dif_neg hix] at h
          cases h
      · simp only [MemoizedTimingData.percentile, if_pos hp, hlk] at h
        injection h with h'
        injection h' with h1 h2
        subst h1; subst h2
        simp [MemoizedTimingData.percentile, if_pos hp, hlk]
    · simp [MemoizedTimingData.percentile, hp] at h
  · intro s l1 l2 q v s1 h
    by_cases hq : q < 1000000 ∧ 990000 < q
    · rcases hlk : s.cached_percentiles.lookup q with _ | w
      · rcases hsd : s.sorted_data l1 with ⟨sorted, s2⟩
        simp only [MemoizedTimingData.permicrotile, if_pos hq, hlk, hsd] at h
        by_cases hix : sorted.length * q / 1000000 < sorted.length
        · rw [dif_pos hix] at h
          injection h with h'
          injection h' with h1 h2
          subst h1; subst h2
          simp [MemoizedTimingData.permicrotile, if_pos hq, List.lookup_cons]
        · rw [dif_neg hix] at h
          cases h
      · simp only [MemoizedTimingData.permicrotile, if_pos hq, hlk] at h
        injection h with h'
        injection h' with h1 h2
        subst h1; subst h2
        simp [MemoizedTimingData.permicrotile, if_pos hq, hlk]
    · simp [MemoizedTimingData.permicrotile, hq] at h

theorem c9_witness :
    MemoizedTimingData.avg ⟨some (F64.val 3), none, none, none, []⟩ [99] =
      (F64.val 3, ⟨some (F64.val 3), none, none, none, []⟩) ∧
    MemoizedTimingData.sd ⟨some (F64.val 3), some (F64.val 1), none, none, []⟩ [99] =
      (F64.val 1, ⟨some (F64.val 3), some (F64.val 1), none, none, []⟩) ∧
    MemoizedTimingData.maxOf ⟨none, none, some (F64.val 4), some [2, 4], []⟩ [99] =
      some (F64.val 4, ⟨none, none, some (F64.val 4), some [2, 4], []⟩) ∧
    MemoizedTimingData.percentile
        ⟨none, none, none, some [2, 4], [(50, F64.val 4)]⟩ [99] 50 =
      some (F64.val 4, ⟨none, none, none, some [2, 4], [(50, F64.val 4)]⟩) ∧
    MemoizedTimingData.permicrotile
        ⟨none, none, none, some [2, 4], [(999999, F64.val 4)]⟩ [99] 999999 =
      some (F64.val 4, ⟨none, none, none, some [2, 4], [(999999, F64.val 4)]⟩) := by
  refine ⟨?_, ?_, ?_, ?_, ?_⟩
  · exact c9_memoization.1 MemoizedTimingData.new [2, 4] [99] _ _
      (by norm_num [MemoizedTimingData.avg, MemoizedTimingData.new, fdiv])
  · exact c9_memoization.2.1 MemoizedTimingData.new [2, 4] [99] _ _
      (by norm_num [MemoizedTimingData.sd, MemoizedTimingData.avg,
        MemoizedTimingData.new, fdiv])
  · exact c9_memoization.2.2.1 MemoizedTimingData.new [2, 4] [99] _ _ (by decide)
  · exact c9_memoization.2.2.2.1 MemoizedTimingData.new [2, 4] [99] 50 _ _ (by decide)
  · exact c9_memoization.2.2.2.2 MemoizedTimingData.new [2, 4] [99] 999999 _ _
      (by decide)

/-- C10: on an empty sample slice, `avg` and `sd` do not panic — the
floating-point division `0.0 / 0.0` makes them return `NaN` — while
`max`, `percentile`, and `permicrotile` always panic on an empty slice,
whatever the numeric argument. -/
theorem c10_empty_nan :
    (MemoizedTimingData.new.avg []).1 = F64.nan ∧
    (MemoizedTimingData.new.sd []).1 = F64.nan ∧
    MemoizedTimingData.new.maxOf [] = none ∧
    (∀ p, MemoizedTimingData.new.percentile [] p = none) ∧
    (∀ q, MemoizedTimingData.new.permicrotile [] q = none) := by
  refine ⟨by decide, by decide, by decide, ?_, ?_⟩
  · intro p
    by_cases hp : p < 100
    · simp [MemoizedTimingData.percentile, MemoizedTimingData.sorted_data,
        MemoizedTimingData.new, hp]
    · simp [MemoizedTimingData.percentile, hp]
  · intro q
    by_cases hq : q < 1000000 ∧ 990000 < q
    · simp [MemoizedTimingData.permicrotile, MemoizedTimingData.sorted_data,
        MemoizedTimingData.new, hq]
    · simp [MemoizedTimingData.permicrotile, hq]

end Bmk
